import Mathlib

/-!
Shallow embedding of the NovaCall operator console, `src/app/page.tsx`.

The page is a React component holding two independently owned pieces of
state: the editor's draft `CallPlan` and the call session (active plan,
status, transcript log, counters, flags).  Every operation in the source is
a synchronous state update; we embed each one as a pure function on an
explicit state record, keeping the source's names.

Identifiers in the source come from `makeId` (`crypto.randomUUID`, with a
`Math.random` fallback) and log timestamps from `Date.now()`; the only
property the program relies on is uniqueness of identifiers within a
session and monotonicity of timestamps.  We model the supply of fresh
identifiers/timestamps as a natural-number counter threaded through the
state: each `makeId`/`Date.now()` pair consumes the current counter value.
-/

/-- Emphasis level of a talking point: `"high" | "medium" | "low"`. -/
inductive Emphasis where
  | high
  | medium
  | low
deriving DecidableEq, Repr

/-- A scripted talking point (`type TalkingPoint` in the source). -/
structure TalkingPoint where
  id : Nat
  content : String
  emphasis : Emphasis
  delivered : Bool
deriving DecidableEq, Repr

/-- The authored call plan (`type CallPlan` in the source). -/
structure CallPlan where
  phoneNumber : String
  purpose : String
  openingDisclosure : String
  talkingPoints : List TalkingPoint
  clarifications : List String
  handoffConditions : List String
  additionalNotes : String
deriving DecidableEq, Repr

/-- Sender of a transcript entry: `"NovaCall" | "Caller"` in the source
(the spec calls these the system-agent and the caller). -/
inductive Sender where
  | NovaCall
  | Caller
deriving DecidableEq, Repr

/-- One transcript entry (`type CallMessage` in the source). -/
structure CallMessage where
  id : Nat
  sender : Sender
  content : String
  timestamp : Nat
deriving DecidableEq, Repr

/-- Call status: `"idle" | "live" | "handoff"`. -/
inductive Status where
  | idle
  | live
  | handoff
deriving DecidableEq, Repr

/-- The call-session state: the active plan plus every session-only
`useState` cell of `HomePage` that the session operations touch, and the
fresh-identifier counter. -/
structure SessionState where
  activePlan : CallPlan
  callStatus : Status
  consentToSummarize : Bool
  summaryNotes : String
  callLog : List CallMessage
  callerEntry : String
  clarificationsUsed : Nat
  recordingDisclosureMade : Bool
  handoffReason : Option String
  freshId : Nat
deriving DecidableEq, Repr

/-- The editor's state: the draft plan and the fresh-identifier counter. -/
structure EditorState where
  draftPlan : CallPlan
  freshId : Nat
deriving DecidableEq, Repr

/-- `pushLogEntry`: appends one entry to the call log, drawing the entry's
identifier and timestamp from the fresh counter. -/
def pushLogEntry (s : SessionState) (sender : Sender) (content : String) :
    SessionState :=
  { s with
    callLog := s.callLog ++ [⟨s.freshId, sender, content, s.freshId⟩]
    freshId := s.freshId + 1 }

/-- `startCall`: sets status to live and logs the opening disclosure.
The source function itself has no status guard; only the button carries
`disabled={callStatus !== "idle"}`. -/
def startCall (s : SessionState) : SessionState :=
  pushLogEntry { s with callStatus := Status.live }
    Sender.NovaCall s.activePlan.openingDisclosure

/-- `nextTalkingPoint`: the first talking point in plan order that is not
yet delivered (`find((point) => !point.delivered)`). -/
def nextTalkingPoint (s : SessionState) : Option TalkingPoint :=
  s.activePlan.talkingPoints.find? (fun point => !point.delivered)

/-- `canUseClarification`: the clarification budget is not exhausted. -/
def canUseClarification (s : SessionState) : Bool :=
  s.clarificationsUsed < s.activePlan.clarifications.length

/-- `toggleTalkingPointDelivered(id)`: flips the `delivered` flag of every
talking point whose identifier matches (ids are unique in practice). -/
def toggleTalkingPointDelivered (s : SessionState) (id : Nat) : SessionState :=
  { s with
    activePlan :=
      { s.activePlan with
        talkingPoints := s.activePlan.talkingPoints.map (fun point =>
          if point.id = id then { point with delivered := !point.delivered }
          else point) } }

/-- `respondWithNextPoint`: no-op when every point is delivered; otherwise
toggles the first undelivered point and logs its content. -/
def respondWithNextPoint (s : SessionState) : SessionState :=
  match nextTalkingPoint s with
  | none => s
  | some point =>
      pushLogEntry (toggleTalkingPointDelivered s point.id)
        Sender.NovaCall point.content

/-- Drop leading whitespace characters from a character list. -/
def dropLeadingWhitespace : List Char → List Char
  | [] => []
  | c :: cs => if c.isWhitespace then dropLeadingWhitespace cs else c :: cs

/-- JavaScript `String.prototype.trim`: removes whitespace from both ends
of the string (embedded structurally over the character list). -/
def String.jsTrim (s : String) : String :=
  ⟨(dropLeadingWhitespace (dropLeadingWhitespace s.data).reverse).reverse⟩

/-- `addCallerEntry`: if the pending caller entry trims to empty, no-op;
otherwise logs the trimmed text as a caller entry and clears the buffer. -/
def addCallerEntry (s : SessionState) : SessionState :=
  if s.callerEntry.jsTrim = "" then s
  else
    { pushLogEntry s Sender.Caller s.callerEntry.jsTrim with
      callerEntry := "" }

/-- `useClarification`: guarded by `canUseClarification`; logs the next
clarification string (with the source's defensive fallback text) and
increments the counter. -/
def useClarification (s : SessionState) : SessionState :=
  if canUseClarification s then
    let clarification :=
      (s.activePlan.clarifications.get? s.clarificationsUsed).getD
        "I\x27m assisting Manohar today—could you share a little more?"
    { pushLogEntry s Sender.NovaCall clarification with
      clarificationsUsed := s.clarificationsUsed + 1 }
  else s

/-- `executeHandoff(condition)`: sets status to handoff, records the
reason, and logs the fixed transfer announcement. -/
def executeHandoff (s : SessionState) (condition : String) : SessionState :=
  pushLogEntry
    { s with callStatus := Status.handoff, handoffReason := some condition }
    Sender.NovaCall "Let me connect you directly with Manohar."

/-- `setConsentToSummarize` state setter. -/
def setConsentToSummarize (s : SessionState) (b : Bool) : SessionState :=
  { s with consentToSummarize := b }

/-- `setSummaryNotes` state setter (bound directly as `onSummaryChange`;
the consent gate exists only as the textarea's `disabled` attribute). -/
def setSummaryNotes (s : SessionState) (t : String) : SessionState :=
  { s with summaryNotes := t }

/-- `setCallerEntry` state setter (bound as `onCallerEntryChange`). -/
def setCallerEntry (s : SessionState) (t : String) : SessionState :=
  { s with callerEntry := t }

/-- `setRecordingDisclosureMade` state setter. -/
def setRecordingDisclosureMade (s : SessionState) (b : Bool) : SessionState :=
  { s with recordingDisclosureMade := b }

/-- `loadDraftToActive`: copies the draft into the active plan forcing
every `delivered` flag to false, and resets all session-only state. -/
def loadDraftToActive (s : SessionState) (draft : CallPlan) : SessionState :=
  { s with
    activePlan :=
      { draft with
        talkingPoints := draft.talkingPoints.map (fun point =>
          { point with delivered := false }) }
    callStatus := Status.idle
    callLog := []
    callerEntry := ""
    clarificationsUsed := 0
    consentToSummarize := false
    summaryNotes := ""
    recordingDisclosureMade := false
    handoffReason := none }

/-- One user-initiated call-session operation, as dispatched by the
console's event handlers. -/
inductive SessionOp where
  | startCall
  | respondWithNext
  | toggleDelivered (id : Nat)
  | setCallerEntry (t : String)
  | logCallerEntry
  | useClarification
  | executeHandoff (condition : String)
  | setConsent (b : Bool)
  | setSummary (t : String)
  | setRecordingDisclosure (b : Bool)
  | load (draft : CallPlan)

/-- Dispatch one session operation. -/
def applySessionOp (s : SessionState) : SessionOp → SessionState
  | SessionOp.startCall => startCall s
  | SessionOp.respondWithNext => respondWithNextPoint s
  | SessionOp.toggleDelivered id => toggleTalkingPointDelivered s id
  | SessionOp.setCallerEntry t => setCallerEntry s t
  | SessionOp.logCallerEntry => addCallerEntry s
  | SessionOp.useClarification => useClarification s
  | SessionOp.executeHandoff c => executeHandoff s c
  | SessionOp.setConsent b => setConsentToSummarize s b
  | SessionOp.setSummary t => setSummaryNotes s t
  | SessionOp.setRecordingDisclosure b => setRecordingDisclosureMade s b
  | SessionOp.load draft => loadDraftToActive s draft

/-- Dispatch a sequence of session operations, left to right. -/
def applySessionOps (s : SessionState) : List SessionOp → SessionState
  | [] => s
  | op :: ops => applySessionOps (applySessionOp s op) ops

/-- Indexed map with an explicit running index, the shape of the source's
`list.map((x, idx) => ...)` callbacks. -/
def mapIdxFrom (f : Nat → α → α) : Nat → List α → List α
  | _, [] => []
  | n, a :: as => f n a :: mapIdxFrom f (n + 1) as

/-- A partial update of a talking point (`Partial<TalkingPoint>`): each
field is either absent or a replacement value. -/
structure TalkingPointPatch where
  id : Option Nat := none
  content : Option String := none
  emphasis : Option Emphasis := none
  delivered : Option Bool := none
deriving DecidableEq, Repr

/-- Spread-merge `{ ...point, ...value }`: fields present in the patch
override the point's fields. -/
def TalkingPoint.merge (point : TalkingPoint) (value : TalkingPointPatch) :
    TalkingPoint :=
  { id := value.id.getD point.id
    content := value.content.getD point.content
    emphasis := value.emphasis.getD point.emphasis
    delivered := value.delivered.getD point.delivered }

/-- `handleTalkingPointChange(index, value)`: merges the patch into the
point at `index`; positions that do not match (in particular every position
when `index` is negative or past the end) are left unchanged.  The index is
an `Int` because the source compares an arbitrary number against the
running array index with `===`. -/
def handleTalkingPointChange (s : EditorState) (index : Int)
    (value : TalkingPointPatch) : EditorState :=
  { s with
    draftPlan :=
      { s.draftPlan with
        talkingPoints :=
          mapIdxFrom
            (fun idx point =>
              if (idx : Int) = index then point.merge value else point)
            0 s.draftPlan.talkingPoints } }

/-- `addTalkingPoint`: appends a fresh talking point with empty content,
low emphasis and `delivered = false`. -/
def addTalkingPoint (s : EditorState) : EditorState :=
  { draftPlan :=
      { s.draftPlan with
        talkingPoints :=
          s.draftPlan.talkingPoints ++
            [{ id := s.freshId, content := "", emphasis := Emphasis.low,
               delivered := false }] }
    freshId := s.freshId + 1 }

/-- `removeTalkingPoint(id)`: removes every talking point whose identifier
matches (ids are unique in practice; no-op when none matches). -/
def removeTalkingPoint (s : EditorState) (id : Nat) : EditorState :=
  { s with
    draftPlan :=
      { s.draftPlan with
        talkingPoints :=
          s.draftPlan.talkingPoints.filter (fun point => point.id != id) } }

/-- One editor operation over the talking-point list. -/
inductive EditorOp where
  | add
  | remove (id : Nat)

/-- Dispatch one editor operation. -/
def applyEditorOp (s : EditorState) : EditorOp → EditorState
  | EditorOp.add => addTalkingPoint s
  | EditorOp.remove id => removeTalkingPoint s id

/-- Dispatch a sequence of editor operations, left to right. -/
def applyEditorOps (s : EditorState) : List EditorOp → EditorState
  | [] => s
  | op :: ops => applyEditorOps (applyEditorOp s op) ops

/-! Concrete states used as counterexample inputs and proof witnesses. -/

/-- A small concrete call plan with three talking points and two
clarifications (the shape of the seeded default plan). -/
def examplePlan : CallPlan :=
  { phoneNumber := "+1 (415) 555-0198"
    purpose := "Follow up on application status"
    openingDisclosure := "Hi, this is NovaCall supporting Manohar."
    talkingPoints :=
      [{ id := 0, content := "Point A", emphasis := Emphasis.high,
         delivered := false },
       { id := 1, content := "Point B", emphasis := Emphasis.medium,
         delivered := false },
       { id := 2, content := "Point C", emphasis := Emphasis.low,
         delivered := false }]
    clarifications := ["Clarification one", "Clarification two"]
    handoffConditions := ["Caller asks for Manohar directly."]
    additionalNotes := "" }

/-- A freshly loaded idle session over `examplePlan`. -/
def idleSession : SessionState :=
  { activePlan := examplePlan
    callStatus := Status.idle
    consentToSummarize := false
    summaryNotes := ""
    callLog := []
    callerEntry := ""
    clarificationsUsed := 0
    recordingDisclosureMade := false
    handoffReason := none
    freshId := 3 }

/-- A session that has reached the handoff status. -/
def handoffSession : SessionState :=
  { idleSession with
    callStatus := Status.handoff
    handoffReason := some "Caller asks for Manohar directly." }

/-! Claim theorems. -/

/-- C1: the claim says that when the status is not idle, `startCall()` is a
no-op (status unchanged, nothing logged).  The source function has no such
guard: from the handoff status it still sets the status to live and appends
the opening-disclosure log entry.  The guard exists only as the start
button's `disabled` attribute. -/
theorem startCall_not_guarded_by_status :
    handoffSession.callStatus = Status.handoff ∧
    (startCall handoffSession).callStatus = Status.live ∧
    (startCall handoffSession).callLog =
      handoffSession.callLog ++
        [{ id := handoffSession.freshId, sender := Sender.NovaCall,
           content := handoffSession.activePlan.openingDisclosure,
           timestamp := handoffSession.freshId }] := by
  refine ⟨rfl, rfl, rfl⟩

/-- C2: the claim says handoff is terminal under every operation other than
load.  It is not: `startCall` (one of the listed operations) moves the
status from handoff back to live, because the source function does not
guard on the status. -/
theorem handoff_not_terminal_under_startCall :
    handoffSession.callStatus = Status.handoff ∧
    (applySessionOp handoffSession SessionOp.startCall).callStatus =
      Status.live ∧
    (applySessionOp handoffSession SessionOp.startCall).callStatus ≠
      Status.handoff := by
  refine ⟨rfl, rfl, by decide⟩

/-- C3: `loadDraftToActive` yields an active plan equal to the draft except
that every delivered flag is forced to false, and resets every session-only
field to its initial value (status idle, empty log, zero clarifications,
no consent, empty summary, no recording disclosure, no handoff reason,
empty pending caller entry). -/
theorem loadDraftToActive_resets (s : SessionState) (draft : CallPlan) :
    ((loadDraftToActive s draft).activePlan.talkingPoints.map
        (fun p => p.delivered)) =
      List.replicate draft.talkingPoints.length false ∧
    ((loadDraftToActive s draft).activePlan.talkingPoints.map
        (fun p => (p.id, p.content, p.emphasis))) =
      draft.talkingPoints.map (fun p => (p.id, p.content, p.emphasis)) ∧
    (loadDraftToActive s draft).activePlan.phoneNumber = draft.phoneNumber ∧
    (loadDraftToActive s draft).activePlan.purpose = draft.purpose ∧
    (loadDraftToActive s draft).activePlan.openingDisclosure =
      draft.openingDisclosure ∧
    (loadDraftToActive s draft).activePlan.clarifications =
      draft.clarifications ∧
    (loadDraftToActive s draft).activePlan.handoffConditions =
      draft.handoffConditions ∧
    (loadDraftToActive s draft).activePlan.additionalNotes =
      draft.additionalNotes ∧
    (loadDraftToActive s draft).callStatus = Status.idle ∧
    (loadDraftToActive s draft).callLog = [] ∧
    (loadDraftToActive s draft).clarificationsUsed = 0 ∧
    (loadDraftToActive s draft).consentToSummarize = false ∧
    (loadDraftToActive s draft).summaryNotes = "" ∧
    (loadDraftToActive s draft).recordingDisclosureMade = false ∧
    (loadDraftToActive s draft).handoffReason = none ∧
    (loadDraftToActive s draft).callerEntry = "" := by
  refine ⟨?_, ?_, rfl, rfl, rfl, rfl, rfl, rfl, rfl, rfl, rfl, rfl, rfl,
    rfl, rfl, rfl⟩
  · simp only [loadDraftToActive, List.map_map]
    induction draft.talkingPoints with
    | nil => rfl
    | cons p ps ih => simpa [List.replicate_succ] using ih
  · simp only [loadDraftToActive, List.map_map]
    exact List.map_congr_left (fun p _ => rfl)

/-- C7: `addCallerEntry` is a no-op when the pending caller entry trims to
the empty string; otherwise it appends exactly one caller entry holding the
trimmed text and clears the pending buffer (all other fields apart from the
fresh-identifier counter are untouched). -/
theorem addCallerEntry_trim_guard (s : SessionState) :
    (s.callerEntry.jsTrim = "" → addCallerEntry s = s) ∧
    (s.callerEntry.jsTrim ≠ "" →
      (addCallerEntry s).callLog =
        s.callLog ++
          [{ id := s.freshId, sender := Sender.Caller,
             content := s.callerEntry.jsTrim, timestamp := s.freshId }] ∧
      (addCallerEntry s).callerEntry = "" ∧
      (addCallerEntry s).callStatus = s.callStatus ∧
      (addCallerEntry s).activePlan = s.activePlan ∧
      (addCallerEntry s).clarificationsUsed = s.clarificationsUsed ∧
      (addCallerEntry s).summaryNotes = s.summaryNotes) := by
  constructor
  · intro h
    simp [addCallerEntry, h]
  · intro h
    simp [addCallerEntry, h, pushLogEntry]

/-- C7 witness: a pending entry of `"  hello  "` is logged as `"hello"`
from the caller and the buffer is cleared. -/
theorem addCallerEntry_trim_guard_witness :
    ({ idleSession with callerEntry := "  hello  " } :
        SessionState).callerEntry.jsTrim ≠ "" ∧
    (addCallerEntry { idleSession with callerEntry := "  hello  " }).callLog =
      ({ idleSession with callerEntry := "  hello  " } :
          SessionState).callLog ++
        [{ id := 3, sender := Sender.Caller, content := "hello",
           timestamp := 3 }] ∧
    (addCallerEntry
        { idleSession with callerEntry := "  hello  " }).callerEntry = "" := by
  have h :=
    (addCallerEntry_trim_guard { idleSession with callerEntry := "  hello  " }).2
      (by decide)
  exact ⟨by decide, h.1, h.2.1⟩

/-- C9: `setSummaryNotes` always records the given text at the data layer:
the result does not depend on the consent flag (the two setters commute and
the text lands even with consent forced to false), and no other session
field changes.  The consent gate exists only as the textarea's `disabled`
attribute. -/
theorem setSummaryNotes_ignores_consent (s : SessionState) (t : String)
    (b : Bool) :
    (setSummaryNotes s t).summaryNotes = t ∧
    (setSummaryNotes { s with consentToSummarize := false } t).summaryNotes =
      t ∧
    setSummaryNotes (setConsentToSummarize s b) t =
      setConsentToSummarize (setSummaryNotes s t) b ∧
    (setSummaryNotes s t).consentToSummarize = s.consentToSummarize ∧
    (setSummaryNotes s t).callStatus = s.callStatus ∧
    (setSummaryNotes s t).callLog = s.callLog ∧
    (setSummaryNotes s t).activePlan = s.activePlan ∧
    (setSummaryNotes s t).clarificationsUsed = s.clarificationsUsed := by
  refine ⟨rfl, rfl, rfl, rfl, rfl, rfl, rfl, rfl⟩

/-- C10: toggling the delivered flag of a talking point that is present in
the active plan twice restores the whole session state exactly; one
application keeps every point's identifier, content and emphasis (and their
order, the list being mapped in place), flips the delivered flag exactly of
the point(s) carrying the given identifier, and touches no other session
field. -/
theorem toggleTalkingPointDelivered_involution (s : SessionState) (id : Nat)
    (_hmem : id ∈ s.activePlan.talkingPoints.map TalkingPoint.id) :
    toggleTalkingPointDelivered (toggleTalkingPointDelivered s id) id = s ∧
    ((toggleTalkingPointDelivered s id).activePlan.talkingPoints.map
        (fun p => (p.id, p.content, p.emphasis))) =
      s.activePlan.talkingPoints.map
        (fun p => (p.id, p.content, p.emphasis)) ∧
    ((toggleTalkingPointDelivered s id).activePlan.talkingPoints.map
        (fun p => p.delivered)) =
      s.activePlan.talkingPoints.map
        (fun p => if p.id = id then !p.delivered else p.delivered) ∧
    (toggleTalkingPointDelivered s id).callStatus = s.callStatus ∧
    (toggleTalkingPointDelivered s id).callLog = s.callLog ∧
    (toggleTalkingPointDelivered s id).clarificationsUsed =
      s.clarificationsUsed ∧
    (toggleTalkingPointDelivered s id).summaryNotes = s.summaryNotes ∧
    (toggleTalkingPointDelivered s id).activePlan.phoneNumber =
      s.activePlan.phoneNumber ∧
    (toggleTalkingPointDelivered s id).activePlan.openingDisclosure =
      s.activePlan.openingDisclosure ∧
    (toggleTalkingPointDelivered s id).activePlan.clarifications =
      s.activePlan.clarifications := by
  refine ⟨?_, ?_, ?_, rfl, rfl, rfl, rfl, rfl, rfl, rfl⟩
  · have h : ∀ ps : List TalkingPoint,
        ((ps.map (fun point =>
            if point.id = id then { point with delivered := !point.delivered }
            else point)).map (fun point =>
            if point.id = id then { point with delivered := !point.delivered }
            else point)) = ps := by
      intro ps
      rw [List.map_map]
      refine List.map_id'' ?_ ps
      intro p
      by_cases hp : p.id = id
      · cases p with | mk a b c d => simp_all [Function.comp]
      · simp [hp, Function.comp]
    simp only [toggleTalkingPointDelivered, h]
  · simp only [toggleTalkingPointDelivered, List.map_map]
    refine List.map_congr_left ?_
    intro p _
    by_cases hp : p.id = id
    · simp [hp, Function.comp]
    · simp [hp, Function.comp]
  · simp only [toggleTalkingPointDelivered, List.map_map]
    refine List.map_congr_left ?_
    intro p _
    by_cases hp : p.id = id
    · simp [hp, Function.comp]
    · simp [hp, Function.comp]

/-- C10 witness: double-toggling point 0 of the freshly loaded example
session gives back the session unchanged. -/
theorem toggleTalkingPointDelivered_involution_witness :
    0 ∈ idleSession.activePlan.talkingPoints.map TalkingPoint.id ∧
    toggleTalkingPointDelivered (toggleTalkingPointDelivered idleSession 0) 0 =
      idleSession :=
  ⟨by decide,
   (toggleTalkingPointDelivered_involution idleSession 0 (by decide)).1⟩

/-- The run of system-agent log entries produced by logging the given texts
in order, with identifiers/timestamps drawn from the counter starting at
`c`. -/
def novaLogFrom (c : Nat) : List String → List CallMessage
  | [] => []
  | t :: ts => ⟨c, Sender.NovaCall, t, c⟩ :: novaLogFrom (c + 1) ts

/-- Helper for C5: running `useClarification` `k` more times from a state
with enough remaining budget consumes the next `k` clarification strings in
list order. -/
theorem useClarification_iterate (k : Nat) :
    ∀ s : SessionState,
      s.clarificationsUsed + k ≤ s.activePlan.clarifications.length →
      useClarification^[k] s =
        { s with
          callLog := s.callLog ++
            novaLogFrom s.freshId
              ((s.activePlan.clarifications.drop s.clarificationsUsed).take k)
          clarificationsUsed := s.clarificationsUsed + k
          freshId := s.freshId + k } := by
  induction k with
  | zero =>
      intro s h
      simp [novaLogFrom]
  | succ k ih =>
      intro s h
      have hlt : s.clarificationsUsed < s.activePlan.clarifications.length :=
        by omega
      have hcan : canUseClarification s = true := by
        simpa [canUseClarification] using hlt
      have hstep : useClarification s =
          { s with
            callLog := s.callLog ++
              [⟨s.freshId, Sender.NovaCall,
                s.activePlan.clarifications[s.clarificationsUsed], s.freshId⟩]
            clarificationsUsed := s.clarificationsUsed + 1
            freshId := s.freshId + 1 } := by
        simp [useClarification, hcan, List.getElem?_eq_getElem hlt,
          pushLogEntry]
      have h1 :
          ({ s with
              callLog := s.callLog ++
                [⟨s.freshId, Sender.NovaCall,
                  s.activePlan.clarifications[s.clarificationsUsed],
                  s.freshId⟩]
              clarificationsUsed := s.clarificationsUsed + 1
              freshId := s.freshId + 1 } : SessionState).clarificationsUsed +
              k ≤
            ({ s with
                callLog := s.callLog ++
                  [⟨s.freshId, Sender.NovaCall,
                    s.activePlan.clarifications[s.clarificationsUsed],
                    s.freshId⟩]
                clarificationsUsed := s.clarificationsUsed + 1
                freshId := s.freshId + 1 } :
              SessionState).activePlan.clarifications.length := by
        show s.clarificationsUsed + 1 + k ≤ s.activePlan.clarifications.length
        omega
      rw [Function.iterate_succ_apply, hstep, ih _ h1]
      have hdrop : s.activePlan.clarifications.drop s.clarificationsUsed =
          s.activePlan.clarifications[s.clarificationsUsed] ::
            s.activePlan.clarifications.drop (s.clarificationsUsed + 1) :=
        List.drop_eq_getElem_cons hlt
      simp only [SessionState.mk.injEq]
      refine ⟨trivial, trivial, trivial, trivial, ?_, trivial, by omega, trivial, trivial, by omega⟩
      rw [hdrop, List.take_succ_cons, novaLogFrom, List.append_assoc]
      rfl

/-- Helper for C5: every session operation keeps the clarification counter
within the active plan's clarification budget. -/
theorem clarificationsUsed_le_step (s : SessionState)
    (h : s.clarificationsUsed ≤ s.activePlan.clarifications.length)
    (op : SessionOp) :
    (applySessionOp s op).clarificationsUsed ≤
      (applySessionOp s op).activePlan.clarifications.length := by
  cases op with
  | startCall => exact h
  | respondWithNext =>
      simp only [applySessionOp, respondWithNextPoint]
      cases hnp : nextTalkingPoint s with
      | none => exact h
      | some p => simpa [pushLogEntry, toggleTalkingPointDelivered] using h
  | toggleDelivered id => exact h
  | setCallerEntry t => exact h
  | logCallerEntry =>
      simp only [applySessionOp, addCallerEntry]
      by_cases hc : s.callerEntry.jsTrim = ""
      · simpa [hc] using h
      · simpa [hc, pushLogEntry] using h
  | useClarification =>
      simp only [applySessionOp, useClarification]
      by_cases hc : canUseClarification s = true
      · have hlt : s.clarificationsUsed <
            s.activePlan.clarifications.length := by
          simpa [canUseClarification] using hc
        simpa [hc, pushLogEntry] using hlt
      · simpa [hc] using h
  | executeHandoff c => exact h
  | setConsent b => exact h
  | setSummary t => exact h
  | setRecordingDisclosure b => exact h
  | load draft => exact Nat.zero_le _

/-- Helper for C5: the clarification-budget invariant holds after every
sequence of session operations. -/
theorem clarificationsUsed_le_ops (ops : List SessionOp) :
    ∀ s : SessionState,
      s.clarificationsUsed ≤ s.activePlan.clarifications.length →
      (applySessionOps s ops).clarificationsUsed ≤
        (applySessionOps s ops).activePlan.clarifications.length := by
  induction ops with
  | nil => intro s h; exact h
  | cons op ops ih =>
      intro s h
      exact ih _ (clarificationsUsed_le_step s h op)

/-- C5: starting from a state whose clarification counter is zero, the
first `L = length clarifications` calls of `useClarification` append the
clarification strings as system-agent log entries once each, in list order
(after `k ≤ L` calls the log has gained exactly the first `k` strings and
the counter is `k`); the `L+1`-th call is a complete no-op; and after every
sequence of session operations the counter never exceeds the active plan's
clarification count. -/
theorem useClarification_consumes_in_order (s : SessionState)
    (h0 : s.clarificationsUsed = 0) :
    (∀ k, k ≤ s.activePlan.clarifications.length →
      useClarification^[k] s =
        { s with
          callLog := s.callLog ++
            novaLogFrom s.freshId (s.activePlan.clarifications.take k)
          clarificationsUsed := k
          freshId := s.freshId + k }) ∧
    useClarification
        (useClarification^[s.activePlan.clarifications.length] s) =
      useClarification^[s.activePlan.clarifications.length] s ∧
    (∀ ops : List SessionOp,
      (applySessionOps s ops).clarificationsUsed ≤
        (applySessionOps s ops).activePlan.clarifications.length) := by
  have hnoop : ∀ t : SessionState,
      ¬ t.clarificationsUsed < t.activePlan.clarifications.length →
      useClarification t = t := by
    intro t ht
    simp [useClarification, canUseClarification, ht]
  have hiter : ∀ k, k ≤ s.activePlan.clarifications.length →
      useClarification^[k] s =
        { s with
          callLog := s.callLog ++
            novaLogFrom s.freshId (s.activePlan.clarifications.take k)
          clarificationsUsed := k
          freshId := s.freshId + k } := by
    intro k hk
    have h1 := useClarification_iterate k s (by omega)
    rw [h0] at h1
    simpa using h1
  refine ⟨hiter, ?_, ?_⟩
  · rw [hiter _ (Nat.le_refl _)]
    apply hnoop
    simp
  · intro ops
    exact clarificationsUsed_le_ops ops s (by omega)

/-- C5 witness: on the example session (two clarifications, counter zero),
two calls log both clarification strings in order and the third call is a
no-op. -/
theorem useClarification_consumes_in_order_witness :
    idleSession.clarificationsUsed = 0 ∧
    useClarification^[2] idleSession =
      { idleSession with
        callLog := novaLogFrom 3 ["Clarification one", "Clarification two"]
        clarificationsUsed := 2
        freshId := 5 } ∧
    useClarification (useClarification^[2] idleSession) =
      useClarification^[2] idleSession := by
  have h := useClarification_consumes_in_order idleSession (by decide)
  refine ⟨by decide, ?_, ?_⟩
  · rw [h.1 2 (by decide)]
    rfl
  · exact h.2.1

/-- Mark a talking point delivered: the shape `respondWithNextPoint`
leaves behind on the point it picks. -/
def markDelivered (p : TalkingPoint) : TalkingPoint :=
  { p with delivered := true }

/-- Helper: `novaLogFrom` distributes over append, shifting the counter by
the length of the first block. -/
theorem novaLogFrom_append (ts us : List String) :
    ∀ c, novaLogFrom c (ts ++ us) =
      novaLogFrom c ts ++ novaLogFrom (c + ts.length) us := by
  induction ts with
  | nil => intro c; simp [novaLogFrom]
  | cons t ts ih =>
      intro c
      have harith : c + 1 + ts.length = c + (ts.length + 1) := by omega
      show (⟨c, Sender.NovaCall, t, c⟩ : CallMessage) ::
          novaLogFrom (c + 1) (ts ++ us) = _
      rw [ih (c + 1), harith]
      rfl

/-- Helper for C4, at the list level: on a talking-point list with
pairwise-distinct identifiers whose points are all undelivered, after the
first `k` points have been marked, the next undelivered point is point `k`,
toggling its identifier marks exactly it, and the logged contents extend by
its content. -/
theorem deliverFirst_step (tps : List TalkingPoint) (k : Nat)
    (hdel : ∀ p ∈ tps, p.delivered = false)
    (hnodup : (tps.map TalkingPoint.id).Nodup)
    (hk : k < tps.length) :
    ((tps.take k).map markDelivered ++ tps.drop k).find?
        (fun point => !point.delivered) = some tps[k] ∧
    ((tps.take k).map markDelivered ++ tps.drop k).map
        (fun point =>
          if point.id = tps[k].id then
            { point with delivered := !point.delivered }
          else point) =
      (tps.take (k + 1)).map markDelivered ++ tps.drop (k + 1) ∧
    (tps.take (k + 1)).map TalkingPoint.content =
      (tps.take k).map TalkingPoint.content ++ [tps[k].content] := by
  have hdropk : tps.drop k = tps[k] :: tps.drop (k + 1) :=
    List.drop_eq_getElem_cons hk
  have hdelk : tps[k].delivered = false := hdel _ (List.getElem_mem hk)
  have htake : tps.take (k + 1) = tps.take k ++ [tps[k]] := by
    rw [List.take_succ, List.getElem?_eq_getElem hk]
    rfl
  have hsplit : tps.map TalkingPoint.id =
      (tps.take k).map TalkingPoint.id ++
        tps[k].id :: (tps.drop (k + 1)).map TalkingPoint.id := by
    conv_lhs => rw [← List.take_append_drop k tps]
    rw [List.map_append, hdropk]
    rfl
  have hnotin : tps[k].id ∉
      (tps.take k).map TalkingPoint.id ++
        (tps.drop (k + 1)).map TalkingPoint.id := by
    have h1 := hsplit ▸ hnodup
    exact (List.nodup_cons.1 (List.nodup_middle.1 h1)).1
  have hneA : ∀ p ∈ tps.take k, p.id ≠ tps[k].id := by
    intro p hp heq
    exact hnotin
      (List.mem_append.2 (Or.inl (heq ▸ List.mem_map_of_mem _ hp)))
  have hneB : ∀ p ∈ tps.drop (k + 1), p.id ≠ tps[k].id := by
    intro p hp heq
    exact hnotin
      (List.mem_append.2 (Or.inr (heq ▸ List.mem_map_of_mem _ hp)))
  refine ⟨?_, ?_, ?_⟩
  · rw [List.find?_append]
    have h1 : ((tps.take k).map markDelivered).find?
        (fun point => !point.delivered) = none := by
      rw [List.find?_eq_none]
      intro x hx
      obtain ⟨p, hp, rfl⟩ := List.mem_map.1 hx
      simp [markDelivered]
    rw [h1, hdropk, List.find?_cons_of_pos _ (by simp [hdelk])]
    rfl
  · have hA : ((tps.take k).map markDelivered).map
        (fun point =>
          if point.id = tps[k].id then
            { point with delivered := !point.delivered }
          else point) = (tps.take k).map markDelivered := by
      rw [List.map_map]
      refine List.map_congr_left ?_
      intro p hp
      simp [Function.comp, markDelivered, hneA p hp]
    have hB : (tps.drop (k + 1)).map
        (fun point =>
          if point.id = tps[k].id then
            { point with delivered := !point.delivered }
          else point) = tps.drop (k + 1) := by
      refine (List.map_congr_left ?_).trans (List.map_id _)
      intro p hp
      simp [hneB p hp]
    rw [List.map_append, hdropk, List.map_cons, hA, hB]
    rw [htake, List.map_append]
    simp [markDelivered, hdelk]
  · rw [htake, List.map_append]
    rfl

/-- Helper for C4: running `respondWithNextPoint` `k` times on a state
whose talking points are all undelivered and carry pairwise-distinct
identifiers marks exactly the first `k` points in plan order and logs
their contents in order. -/
theorem respondWithNextPoint_iterate (s : SessionState)
    (hdel : ∀ p ∈ s.activePlan.talkingPoints, p.delivered = false)
    (hnodup : (s.activePlan.talkingPoints.map TalkingPoint.id).Nodup) :
    ∀ k, k ≤ s.activePlan.talkingPoints.length →
      respondWithNextPoint^[k] s =
        { s with
          activePlan :=
            { s.activePlan with
              talkingPoints :=
                (s.activePlan.talkingPoints.take k).map markDelivered ++
                  s.activePlan.talkingPoints.drop k }
          callLog := s.callLog ++
            novaLogFrom s.freshId
              ((s.activePlan.talkingPoints.take k).map TalkingPoint.content)
          freshId := s.freshId + k } := by
  intro k
  induction k with
  | zero =>
      intro hk
      simp [novaLogFrom]
  | succ k ih =>
      intro hk1
      have hk : k < s.activePlan.talkingPoints.length := by omega
      obtain ⟨hfind, hmap, hcont⟩ :=
        deliverFirst_step s.activePlan.talkingPoints k hdel hnodup hk
      have hlen : ((s.activePlan.talkingPoints.take k).map
          TalkingPoint.content).length = k := by
        simp [List.length_take]
        omega
      rw [Function.iterate_succ_apply', ih (by omega)]
      simp only [respondWithNextPoint, nextTalkingPoint, hfind]
      simp only [toggleTalkingPointDelivered, pushLogEntry, hmap]
      rw [hcont, novaLogFrom_append, hlen]
      simp [novaLogFrom, List.append_assoc]
      omega

/-- C4: for an active plan whose `N` talking points all start undelivered
and carry pairwise-distinct identifiers (the data-model invariant on
identifiers), the first `N` calls of `respondWithNextPoint` mark each
talking point delivered exactly once, in plan order — after `k ≤ N` calls
exactly the first `k` points are marked and the log has gained their
contents as system-agent entries, in order — and the `N+1`-th call is a
complete no-op. -/
theorem respondWithNext_delivers_in_order (s : SessionState)
    (hdel : ∀ p ∈ s.activePlan.talkingPoints, p.delivered = false)
    (hnodup : (s.activePlan.talkingPoints.map TalkingPoint.id).Nodup) :
    (∀ k, k ≤ s.activePlan.talkingPoints.length →
      respondWithNextPoint^[k] s =
        { s with
          activePlan :=
            { s.activePlan with
              talkingPoints :=
                (s.activePlan.talkingPoints.take k).map markDelivered ++
                  s.activePlan.talkingPoints.drop k }
          callLog := s.callLog ++
            novaLogFrom s.freshId
              ((s.activePlan.talkingPoints.take k).map TalkingPoint.content)
          freshId := s.freshId + k }) ∧
    respondWithNextPoint
        (respondWithNextPoint^[s.activePlan.talkingPoints.length] s) =
      respondWithNextPoint^[s.activePlan.talkingPoints.length] s := by
  refine ⟨respondWithNextPoint_iterate s hdel hnodup, ?_⟩
  rw [respondWithNextPoint_iterate s hdel hnodup _ (Nat.le_refl _)]
  have hfn : (((s.activePlan.talkingPoints.take
        s.activePlan.talkingPoints.length).map markDelivered ++
      s.activePlan.talkingPoints.drop
        s.activePlan.talkingPoints.length).find?
        (fun point => !point.delivered)) = none := by
    rw [List.take_length, List.drop_length, List.append_nil,
      List.find?_eq_none]
    intro x hx
    obtain ⟨p, hp, rfl⟩ := List.mem_map.1 hx
    simp [markDelivered]
  simp only [respondWithNextPoint, nextTalkingPoint, hfn]

/-- C4 witness: on the example session (three undelivered points with
distinct identifiers) the fourth `respondWithNextPoint` call is a no-op. -/
theorem respondWithNext_delivers_in_order_witness :
    (∀ p ∈ idleSession.activePlan.talkingPoints, p.delivered = false) ∧
    (idleSession.activePlan.talkingPoints.map TalkingPoint.id).Nodup ∧
    respondWithNextPoint (respondWithNextPoint^[3] idleSession) =
      respondWithNextPoint^[3] idleSession := by
  have h :=
    respondWithNext_delivers_in_order idleSession (by decide) (by decide)
  exact ⟨by decide, by decide, h.2⟩

/-- The talking points created, in creation order, by a sequence of editor
operations starting from fresh-counter value `c`. -/
def createdPoints (c : Nat) : List EditorOp → List TalkingPoint
  | [] => []
  | EditorOp.add :: ops =>
      { id := c, content := "", emphasis := Emphasis.low,
        delivered := false } :: createdPoints (c + 1) ops
  | EditorOp.remove _ :: ops => createdPoints c ops

/-- Helper for C6: after any sequence of add/remove operations the
surviving talking points are a sublist (same records, same relative order)
of the initial points followed by the created points. -/
theorem applyEditorOps_sublist (ops : List EditorOp) :
    ∀ s : EditorState,
      ((applyEditorOps s ops).draftPlan.talkingPoints).Sublist
        (s.draftPlan.talkingPoints ++ createdPoints s.freshId ops) := by
  induction ops with
  | nil =>
      intro s
      simp [applyEditorOps, createdPoints]
  | cons op ops ih =>
      intro s
      cases op with
      | add =>
          have h := ih (addTalkingPoint s)
          simpa [applyEditorOps, applyEditorOp, addTalkingPoint,
            createdPoints, List.append_assoc] using h
      | remove id =>
          show List.Sublist
            (applyEditorOps (removeTalkingPoint s id) ops).draftPlan.talkingPoints _
          refine (ih (removeTalkingPoint s id)).trans ?_
          show List.Sublist
            ((s.draftPlan.talkingPoints.filter (fun point => point.id != id)) ++
              createdPoints s.freshId ops) _
          exact (List.filter_sublist _).append (List.Sublist.refl _)

/-- C6: over every sequence of `addTalkingPoint`/`removeTalkingPoint`
operations, the surviving talking points form a sublist of the initial
points followed by the created points, so every survivor is exactly the
record it was created as, in unchanged relative order; `addTalkingPoint`
appends one point with the fresh identifier, empty content, low emphasis
and `delivered = false`, and that identifier differs from every existing
point's; `removeTalkingPoint id` keeps exactly the points whose identifier
differs from `id`, in order, and is a no-op when no point carries `id`. -/
theorem editor_preserves_identity_and_order (s : EditorState)
    (hfresh : ∀ p ∈ s.draftPlan.talkingPoints, p.id < s.freshId) :
    (∀ ops : List EditorOp,
      ((applyEditorOps s ops).draftPlan.talkingPoints).Sublist
        (s.draftPlan.talkingPoints ++ createdPoints s.freshId ops)) ∧
    (addTalkingPoint s).draftPlan.talkingPoints =
      s.draftPlan.talkingPoints ++
        [{ id := s.freshId, content := "", emphasis := Emphasis.low,
           delivered := false }] ∧
    (∀ p ∈ s.draftPlan.talkingPoints, p.id ≠ s.freshId) ∧
    (∀ id, ((removeTalkingPoint s id).draftPlan.talkingPoints).Sublist
        s.draftPlan.talkingPoints) ∧
    (∀ id p, p ∈ (removeTalkingPoint s id).draftPlan.talkingPoints ↔
        p ∈ s.draftPlan.talkingPoints ∧ p.id ≠ id) ∧
    (∀ id, (∀ p ∈ s.draftPlan.talkingPoints, p.id ≠ id) →
      removeTalkingPoint s id = s) := by
  refine ⟨fun ops => applyEditorOps_sublist ops s, rfl, ?_, ?_, ?_, ?_⟩
  · intro p hp heq
    have := hfresh p hp
    omega
  · intro id
    exact List.filter_sublist _
  · intro id p
    simp [removeTalkingPoint, List.mem_filter]
  · intro id hnone
    have hfilter : s.draftPlan.talkingPoints.filter
        (fun point => point.id != id) = s.draftPlan.talkingPoints := by
      apply List.filter_eq_self.2
      intro p hp
      simpa using hnone p hp
    simp [removeTalkingPoint, hfilter]

/-- A concrete editor state over the example plan. -/
def editorExample : EditorState :=
  { draftPlan := examplePlan, freshId := 3 }

/-- C6 witness: the freshness invariant holds on the example editor state
and a concrete add-then-remove sequence yields a sublist of the initial
points plus the created point. -/
theorem editor_preserves_identity_and_order_witness :
    (∀ p ∈ editorExample.draftPlan.talkingPoints,
      p.id < editorExample.freshId) ∧
    ((applyEditorOps editorExample
        [EditorOp.add, EditorOp.remove 0]).draftPlan.talkingPoints).Sublist
      (editorExample.draftPlan.talkingPoints ++
        createdPoints editorExample.freshId
          [EditorOp.add, EditorOp.remove 0]) :=
  ⟨by decide,
   (editor_preserves_identity_and_order editorExample (by decide)).1 _⟩

/-- Helper for C8: the indexed map leaves every element unchanged when the
target index lies outside the covered positions. -/
theorem mapIdxFrom_out_of_range (i : Int) (v : TalkingPointPatch) :
    ∀ (as : List TalkingPoint) (n : Nat),
      (i < (n : Int) ∨ ((n : Int) + as.length ≤ i)) →
      mapIdxFrom
        (fun idx point =>
          if (idx : Int) = i then point.merge v else point) n as = as := by
  intro as
  induction as with
  | nil => intro n h; rfl
  | cons a as ih =>
      intro n h
      have hne : ¬ ((n : Int) = i) := by
        simp only [List.length_cons] at h
        omega
      have htail : i < ((n + 1 : Nat) : Int) ∨
          ((n + 1 : Nat) : Int) + as.length ≤ i := by
        simp only [List.length_cons] at h
        push_cast
        push_cast at h
        omega
      simp only [mapIdxFrom, if_neg hne, ih (n + 1) htail]

/-- Helper for C8: when the target index names position `j` of the block,
the indexed map replaces exactly the element at `j` by its patch-merge. -/
theorem mapIdxFrom_set (v : TalkingPointPatch) (i : Int) :
    ∀ (as : List TalkingPoint) (n j : Nat) (hj : j < as.length),
      i = ((n + j : Nat) : Int) →
      mapIdxFrom
        (fun idx point =>
          if (idx : Int) = i then point.merge v else point) n as =
        as.set j ((as.get ⟨j, hj⟩).merge v) := by
  intro as
  induction as with
  | nil =>
      intro n j hj hi
      simp at hj
  | cons a as ih =>
      intro n j hj hi
      cases j with
      | zero =>
          have hhd : ((n : Int) = i) := by
            rw [hi]
            push_cast
            omega
          have htail :
              mapIdxFrom
                (fun idx point =>
                  if (idx : Int) = i then point.merge v else point)
                (n + 1) as = as := by
            apply mapIdxFrom_out_of_range
            left
            rw [hi]
            push_cast
            omega
          simp only [mapIdxFrom, if_pos hhd, htail]
          rfl
      | succ j =>
          have hne : ¬ ((n : Int) = i) := by
            rw [hi]
            push_cast
            omega
          have hi1 : i = (((n + 1) + j : Nat) : Int) := by
            rw [hi]
            push_cast
            omega
          have hj1 : j < as.length := by
            simpa using hj
          simp only [mapIdxFrom, if_neg hne, ih (n + 1) j hj1 hi1]
          rfl

/-- C8: `handleTalkingPointChange` is a total function (it can only
transform the state, never fail); with an out-of-range index — negative or
at least the number of talking points — it leaves the editor state
entirely unchanged, and with an in-range index `j` it replaces exactly the
point at `j` by the patch-merge of that point, leaving every other point
and every other plan field unchanged. -/
theorem handleTalkingPointChange_total (s : EditorState) (i : Int)
    (v : TalkingPointPatch) :
    ((i < 0 ∨ (s.draftPlan.talkingPoints.length : Int) ≤ i) →
      handleTalkingPointChange s i v = s) ∧
    (∀ (j : Nat) (hj : j < s.draftPlan.talkingPoints.length),
      i = (j : Int) →
      (handleTalkingPointChange s i v).draftPlan.talkingPoints =
        s.draftPlan.talkingPoints.set j
          ((s.draftPlan.talkingPoints.get ⟨j, hj⟩).merge v)) ∧
    (handleTalkingPointChange s i v).draftPlan.phoneNumber =
      s.draftPlan.phoneNumber ∧
    (handleTalkingPointChange s i v).draftPlan.purpose =
      s.draftPlan.purpose ∧
    (handleTalkingPointChange s i v).draftPlan.openingDisclosure =
      s.draftPlan.openingDisclosure ∧
    (handleTalkingPointChange s i v).draftPlan.clarifications =
      s.draftPlan.clarifications ∧
    (handleTalkingPointChange s i v).draftPlan.handoffConditions =
      s.draftPlan.handoffConditions ∧
    (handleTalkingPointChange s i v).draftPlan.additionalNotes =
      s.draftPlan.additionalNotes ∧
    (handleTalkingPointChange s i v).freshId = s.freshId := by
  refine ⟨?_, ?_, rfl, rfl, rfl, rfl, rfl, rfl, rfl⟩
  · intro h
    have h0 : i < ((0 : Nat) : Int) ∨
        ((0 : Nat) : Int) + s.draftPlan.talkingPoints.length ≤ i := by
      push_cast
      omega
    simp [handleTalkingPointChange,
      mapIdxFrom_out_of_range i v s.draftPlan.talkingPoints 0 h0]
  · intro j hj hi
    have hi0 : i = ((0 + j : Nat) : Int) := by
      rw [hi]
      push_cast
      omega
    show mapIdxFrom
        (fun idx point =>
          if (idx : Int) = i then point.merge v else point) 0
        s.draftPlan.talkingPoints = _
    rw [mapIdxFrom_set v i s.draftPlan.talkingPoints 0 j hj hi0]

/-- An example partial update: new content and emphasis, other fields
absent. -/
def examplePatch : TalkingPointPatch :=
  { content := some "Updated content", emphasis := some Emphasis.high }

/-- C8 witness: on the example editor state, a negative and a too-large
index are silent no-ops, and index 1 merges the patch into point 1. -/
theorem handleTalkingPointChange_total_witness :
    handleTalkingPointChange editorExample (-1) examplePatch =
      editorExample ∧
    handleTalkingPointChange editorExample 5 examplePatch = editorExample ∧
    (handleTalkingPointChange editorExample 1
        examplePatch).draftPlan.talkingPoints =
      editorExample.draftPlan.talkingPoints.set 1
        ((editorExample.draftPlan.talkingPoints.get
            ⟨1, by decide⟩).merge examplePatch) := by
  refine ⟨?_, ?_, ?_⟩
  · exact (handleTalkingPointChange_total editorExample (-1)
      examplePatch).1 (by decide)
  · exact (handleTalkingPointChange_total editorExample 5
      examplePatch).1 (by decide)
  · exact (handleTalkingPointChange_total editorExample 1
      examplePatch).2.1 1 (by decide) (by decide)
